import Mathlib

/-!
# Verification of the home-podcast watch/debounce/refresh engine

Shallow embedding of the Go packages `internal/library`, `internal/auth` and
`internal/metadata` of the home-podcast repository, together with proofs about
the snapshot, sorting, token-parsing, event-filtering and shutdown behaviour
of the code.

Modelling conventions:
* Go strings are Lean `String`s; byte-wise Go string comparison is modelled by
  the lexicographic order on `String.data` (UTF-8 byte order and code-point
  order agree).
* `float64` values (MP3 durations) are modelled as `ℚ`.
* Filesystem interactions (`os.Stat`, `filepath.WalkDir` enumeration,
  `os.ReadFile`, tag reading, MP3 decoding) are inputs to the embedded
  functions: each embedded function receives the outcome the OS / external
  library produced, and the embedding reproduces the Go control flow on it.
* The Unicode-aware Go helpers (`strings.ToLower`, `strings.EqualFold`,
  `unicode.IsSpace`) are modelled on the ASCII/Latin-1 range, which covers
  every string the claims are about.
-/

/-! ## Go string primitives -/

/-- Go strings.ToLower on a single character, ASCII range. -/
def goToLowerChar (c : Char) : Char :=
  if 'A' ≤ c ∧ c ≤ 'Z' then Char.ofNat (c.toNat + 32) else c

/-- Go strings.ToLower (ASCII model). -/
def goToLower (s : String) : String :=
  String.mk (s.data.map goToLowerChar)

/-- Go strings.EqualFold (ASCII model): equality after case folding. -/
def goEqualFold (a b : String) : Bool :=
  goToLower a = goToLower b

/-- Go unicode.IsSpace restricted to the Latin-1 range, exactly the characters
Go treats as white space there: tab, newline, vertical tab, form feed,
carriage return, space, U+0085 (NEL) and U+00A0 (NBSP). -/
def goIsSpace (c : Char) : Bool :=
  c = ' ' || c = '\t' || c = '\n' || c = Char.ofNat 11 || c = Char.ofNat 12 ||
    c = '\r' || c = Char.ofNat 0x85 || c = Char.ofNat 0xA0

/-- Go strings.TrimSpace: drop leading and trailing white space. -/
def goTrimSpace (s : String) : String :=
  String.mk (((s.data.dropWhile goIsSpace).reverse.dropWhile goIsSpace).reverse)

/-- Go strings.Split for a one-character separator, on char lists.
Like Go, it always yields one more piece than there are separators. -/
def goSplitChar (sep : Char) : List Char → List (List Char)
  | [] => [[]]
  | c :: rest =>
    match goSplitChar sep rest with
    | [] => [[c]]
    | piece :: pieces =>
      if c = sep then [] :: piece :: pieces else (c :: piece) :: pieces

/-- Go filepath.Ext: scan the path from the right; stop at a path separator
(no extension), return the suffix from the final dot otherwise.  The first
argument accumulates the characters already scanned (in forward order). -/
def goExtAux (acc : List Char) : List Char → List Char
  | [] => []
  | c :: rest =>
    if c = '/' then []
    else if c = '.' then c :: acc
    else goExtAux (c :: acc) rest

/-- Go filepath.Ext on a Unix path. -/
def goExt (path : String) : String :=
  String.mk (goExtAux [] path.data.reverse)

/-- Go filepath.Base on a Unix path: an empty path gives a dot, trailing slashes are
stripped, the last element is returned, an all-slash path gives "/". -/
def goBase (path : String) : String :=
  if path = "" then "."
  else
    let cs := (path.data.reverse.dropWhile (· = '/')).reverse
    let base := (cs.reverse.takeWhile (· ≠ '/')).reverse
    if base = [] then "/" else String.mk base

/-- Go strings.TrimSuffix. -/
def goTrimSuffix (s suffix : String) : String :=
  if suffix.data.isSuffixOf s.data then
    String.mk (s.data.take (s.data.length - suffix.data.length))
  else s

/-- Go filepath.ToSlash: the identity on platforms whose separator is the
forward slash, which is the deployment target of this repository. -/
def goToSlash (s : String) : String := s

/-- Two Lean strings are equal iff their character lists are. -/
theorem string_eq_iff_data {s t : String} : s = t ↔ s.data = t.data := by
  constructor
  · intro h; rw [h]
  · intro h; cases s; cases t; exact congrArg String.mk h

/-! ## Time (`time.Time` restricted to what the code uses) -/

/-- An instant: nanoseconds since the Unix epoch, plus the location flag that
`(time.Time).UTC()` sets.  File modification times are non-negative. -/
structure GoTime where
  ns : Int
  isUTC : Bool
deriving DecidableEq

def nsPerSecond : Int := 1000000000

/-- Go time.Time Round with a one-second unit: round to the nearest whole second,
halfway values rounding up (Go rounds relative to the zero time; for the
non-negative instants modelled here this is the formula below). -/
def goRoundSecond (t : GoTime) : GoTime :=
  let r := t.ns % nsPerSecond
  if 2 * r < nsPerSecond then { t with ns := t.ns - r }
  else { t with ns := t.ns - r + nsPerSecond }

/-- Go time.Time UTC: same instant, location normalized to UTC. -/
def goUTC (t : GoTime) : GoTime := { t with isUTC := true }

/-- Modelled from the spec: "last-modified timestamp (truncated to whole
seconds, normalized to UTC)" — truncation discards the sub-second part. -/
def specTruncatedSecondUTC (t : GoTime) : GoTime :=
  { ns := t.ns - t.ns % nsPerSecond, isUTC := true }

/-! ## Data model (`internal/models/episode.go`) -/

/-- Go models.Episode.  Go pointer fields (string, float64 and int pointers) are
optional values; `float64` is modelled as `ℚ`. -/
structure Episode where
  ID : String
  Filename : String
  RelativePath : String
  Title : String
  Artist : Option String
  Album : Option String
  DurationSeconds : Option ℚ
  BitrateKbps : Option Int
  FilesizeBytes : Int
  ModifiedAt : GoTime
deriving DecidableEq

/-! ## Metadata builder (`internal/metadata`, `BuildEpisode`) -/

/-- Result of `os.Stat`: size in bytes and modification time. -/
structure FileInfo where
  size : Int
  modTime : GoTime
deriving DecidableEq

/-- A Go `error` value (only its identity matters to the control flow). -/
structure GoErr where
  code : Nat
deriving DecidableEq

/-- What `tag.ReadFrom` reports on success. -/
structure RawTags where
  title : String
  artist : String
  album : String
deriving DecidableEq

/-- The filesystem/decoder outcomes `BuildEpisode` consumes for one file:
`os.Stat`, `filepath.Rel(root, path)`, `tag.ReadFrom`, and
`computeMP3Duration` (total decoded frame duration, a `float64`). -/
structure FileOracle where
  stat : Except GoErr FileInfo
  rel : Except Unit String
  tags : Except Unit RawTags
  mp3Duration : Except Unit ℚ

/-- Go metadata.optionalString: trim, and map the empty string to nil. -/
def optionalString (value : String) : Option String :=
  let v := goTrimSpace value
  if v = "" then none else some v

/-- Go metadata.readTags: on any open/parse failure report empty metadata,
otherwise the trimmed title and optional artist/album. -/
def readTags (r : Except Unit RawTags) : String × Option String × Option String :=
  match r with
  | .error _ => ("", none, none)
  | .ok m => (goTrimSpace m.title, optionalString m.artist, optionalString m.album)

/-- Go math.Round on the `ℚ` model of float64: round half away from zero. -/
def goMathRound (q : ℚ) : Int :=
  if 0 ≤ q then ⌊q + 1 / 2⌋ else -⌊-q + 1 / 2⌋

/-- Go metadata.BuildEpisode given the external outcomes `io`. -/
def buildEpisode (path root : String) (io : FileOracle) : Except GoErr Episode :=
  match io.stat with
  | .error e => .error e
  | .ok info =>
    let relative :=
      match io.rel with
      | .ok r => goToSlash r
      | .error _ => goBase path
    let tagged := readTags io.tags
    let title :=
      if tagged.1 = "" then goTrimSuffix (goBase path) (goExt path) else tagged.1
    let durBit : Option ℚ × Option Int :=
      if goEqualFold (goExt path) ".mp3" then
        match io.mp3Duration with
        | .ok dur =>
          if 0 < dur then
            let bitrate := goMathRound ((info.size : ℚ) * 8 / dur / 1000)
            (some dur, if 0 < bitrate then some bitrate else none)
          else (none, none)
        | .error _ => (none, none)
      else (none, none)
    .ok { ID := relative
          Filename := goBase path
          RelativePath := relative
          Title := title
          Artist := tagged.2.1
          Album := tagged.2.2
          DurationSeconds := durBit.1
          BitrateKbps := durBit.2
          FilesizeBytes := info.size
          ModifiedAt := goRoundSecond (goUTC info.modTime) }

/-! ## Token store (`internal/auth/token_store.go`) -/

/-- Outcome of `os.ReadFile` as the token store distinguishes it:
`notExist` is an error satisfying `errors.Is(err, os.ErrNotExist)`. -/
inductive ReadErr where
  | notExist : ReadErr
  | other : Nat → ReadErr
deriving DecidableEq

/-- The line-parsing half of `TokenStore.refresh`: split the file content on
newlines, trim each line, keep the non-blank ones.  The Go map collapses
duplicates; membership in this list is the embedded set membership. -/
def parseTokenLines (content : String) : List String :=
  (((goSplitChar '\n' content.data).map (fun cs => goTrimSpace (String.mk cs))).filter
    (fun t => t ≠ ""))

/-- Go TokenStore.refresh given the os.ReadFile outcome and the previously
published token set: returns the error surfaced (if any) and the token set
published afterwards. -/
def tokenRefresh (readResult : Except ReadErr String) (prior : List String) :
    Option ReadErr × List String :=
  match readResult with
  | .error .notExist => (none, [])
  | .error e => (some e, prior)
  | .ok content => (none, parseTokenLines content)

/-- Go TokenStore.IsValidToken: trim, reject empty, then set membership. -/
def isValidToken (tokens : List String) (token : String) : Bool :=
  let t := goTrimSpace token
  if t = "" then false else decide (t ∈ tokens)

/-! ## Catalog watcher (`internal/library/library.go`) -/

/-- An fsnotify operation bitmask, one flag per fsnotify op bit. -/
structure FsOp where
  create : Bool
  write : Bool
  remove : Bool
  rename : Bool
  chmod : Bool
deriving DecidableEq

/-- An fsnotify event: the affected path and the operation bitmask. -/
structure FsEvent where
  name : String
  op : FsOp
deriving DecidableEq

/-- How NewLibrary builds the accepted-extension set: every accepted extension
is stored lowercased (the key set of the Go map, as a list). -/
def mkAllowed (exts : List String) : List String :=
  exts.map goToLower

/-- Go Library.isAllowed: lowercase the extension of the path and test membership
in the accepted set. -/
def isAllowed (allowed : List String) (path : String) : Bool :=
  decide (goToLower (goExt path) ∈ allowed)

/-- The scheduling decision of `Library.handleEvent` (the recursive re-watch
of new directories does not influence it): true iff `scheduleRefresh` is
invoked for the event. -/
def handleEventSchedules (allowed : List String) (ev : FsEvent) : Bool :=
  if ev.op.create || ev.op.write || ev.op.remove || ev.op.rename then
    if isAllowed allowed ev.name || (ev.op.remove || ev.op.rename) then true
    else false
  else false

/-- One callback invocation of the `filepath.WalkDir` in `Library.refresh`:
either the walk reported an error for the entry, or the entry is a
directory, or it is a file together with the outcomes `BuildEpisode`
consumes for it. -/
inductive WalkEntry where
  | errEntry (path : String)
  | dir (path : String)
  | file (path : String) (io : FileOracle)

/-- The value the `Library.refresh` walk callback returns for one entry.
Walk errors are logged and skipped (`return nil`), directories are skipped,
per-file builder errors are logged and skipped — the callback returns `nil`
on every path. -/
def walkCallbackReturn : WalkEntry → Option GoErr := fun _ => none

/-- The error `filepath.WalkDir` reports back to `Library.refresh`: the first
non-nil callback return, if any. -/
def walkDirError (entries : List WalkEntry) : Option GoErr :=
  entries.findSome? walkCallbackReturn

/-- The episode list accumulated by the `Library.refresh` walk, in
enumeration order: skip error entries and directories, skip files whose
extension is not accepted, skip files whose builder fails. -/
def walkCollect (root : String) (allowed : List String) : List WalkEntry → List Episode
  | [] => []
  | .errEntry _ :: rest => walkCollect root allowed rest
  | .dir _ :: rest => walkCollect root allowed rest
  | .file path io :: rest =>
    if isAllowed allowed path then
      match buildEpisode path root io with
      | .ok ep => ep :: walkCollect root allowed rest
      | .error _ => walkCollect root allowed rest
    else walkCollect root allowed rest

/-- The comparator passed to `sort.SliceStable` in `Library.refresh`:
less-than by relative path, ties broken by filename.  Go compares strings
byte-wise; on UTF-8 this is the lexicographic order on the char lists. -/
def episodeLess (a b : Episode) : Bool :=
  if a.RelativePath = b.RelativePath then decide (a.Filename.data < b.Filename.data)
  else decide (a.RelativePath.data < b.RelativePath.data)

/-- The weak order `sort.SliceStable` sorts by: `a` may stay before `b` iff
`b` is not strictly less than `a`. -/
def episodeLe (a b : Episode) : Prop := episodeLess b a = false

instance : DecidableRel episodeLe :=
  fun a b => inferInstanceAs (Decidable (episodeLess b a = false))

/-- Go sort.SliceStable over episodes modelled as a stable sort by the same
comparator. -/
def sortEpisodes (l : List Episode) : List Episode :=
  List.insertionSort episodeLe l

/-- Go Library.refresh given the walk enumeration: propagate the `WalkDir`
error if any (there never is one — the callback always returns nil),
otherwise publish the sorted episode list. -/
def libraryRefresh (root : String) (allowed : List String) (entries : List WalkEntry) :
    Except GoErr (List Episode) :=
  match walkDirError entries with
  | some e => .error e
  | none => .ok (sortEpisodes (walkCollect root allowed entries))

/-- What `NewLibrary` leaves behind on success: the initially published
episode list and whether the background event pump was started. -/
structure LibraryInit where
  episodes : List Episode
  pumpStarted : Bool
deriving DecidableEq

/-- Go NewLibrary: fail if `fsnotify.NewWatcher`
fails; otherwise lowercase the accepted extensions, run the initial
synchronous recompute, fail without starting the pump if it errors, and
start the pump on success. -/
def newLibrary (root : String) (allowedExts : List String)
    (watcherRes : Except GoErr Unit) (entries : List WalkEntry) :
    Except GoErr LibraryInit :=
  match watcherRes with
  | .error e => .error e
  | .ok _ =>
    match libraryRefresh root (mkAllowed allowedExts) entries with
    | .error e => .error e
    | .ok eps => .ok { episodes := eps, pumpStarted := true }

/-! ## Snapshot reads (`Library.ListEpisodes`) and slice aliasing

`ListEpisodes` allocates a fresh backing array (`make`) and copies the
published episode structs into it.  To state that mutating the returned
slice cannot reach the published state, slices are modelled by reference:
a heap of backing arrays, the published snapshot being one cell, every
`ListEpisodes` call allocating a new cell. -/

/-- A heap of slice backing arrays; a slice reference is an index. -/
structure SliceHeap where
  cells : List (List Episode)

/-- Dereference a slice (out-of-range reads give the empty slice; the
theorems only use in-range references). -/
def readSlice (h : SliceHeap) (r : Nat) : List Episode :=
  h.cells.getD r []

/-- Go Library.ListEpisodes: allocate a fresh backing array, copy the
published episodes into it, return the new reference. -/
def listEpisodes (h : SliceHeap) (published : Nat) : SliceHeap × Nat :=
  (⟨h.cells ++ [readSlice h published]⟩, h.cells.length)

/-- A caller-side mutation of a slice: overwrite record `i` of the slice
behind `r` with `f` applied to it (field updates and whole-record
replacement are both instances of `f`). -/
def mutateRecord (h : SliceHeap) (r i : Nat) (f : Episode → Episode) : SliceHeap :=
  ⟨h.cells.set r (List.modify f i (readSlice h r))⟩

/-! ## Shutdown versus a racing scheduleRefresh (`Close`, `scheduleRefresh`)

`Library.Close`/`TokenStore.Close` and `Library.scheduleRefresh`/
`TokenStore.scheduleRefresh` are modelled as an interleaving machine with
three sources of steps: the event-pump goroutine executing one
`scheduleRefresh` call, the goroutine executing `Close`, and the timer
facility firing an armed `time.AfterFunc` timer.  Each region executed
under `refreshMu` is one atomic step (the lock guarantees mutual
exclusion); the `select` on `done` in `scheduleRefresh` happens *before*
the lock is taken, so it is a separate step — exactly the order in the code. -/

/-- Program counter of the event-pump goroutine during one
`scheduleRefresh` call (after `finished` the pump loop observes `done`
closed and `run` returns, releasing `wg.Wait`). -/
inductive SchedPC where
  | start
  | passedDoneCheck
  | finished
deriving DecidableEq

/-- Program counter of the goroutine executing `Close` (the `closeOnce`
body). -/
inductive ClosePC where
  | start
  | doneClosed
  | timerCancelled
  | returned
deriving DecidableEq

/-- Externally observable happenings, in order of occurrence: `Close`
returning to its caller, and an armed debounce timer firing its callback
(which runs `refresh`, the recompute). -/
inductive WEvent where
  | closeReturned
  | refreshRun
deriving DecidableEq

/-- State of the watcher shutdown machine. -/
structure WatcherConfig where
  done : Bool
  timerArmed : Bool
  pcSched : SchedPC
  pcClose : ClosePC
  events : List WEvent
deriving DecidableEq

/-- The interleaved atomic steps. -/
inductive WAction where
  | schedCheckDone
  | schedArmTimer
  | closeSignalDone
  | closeCancelTimer
  | closeWaitReturn
  | timerFire
deriving DecidableEq

/-- One atomic step; `none` when the action is not enabled in `c`.
* `schedCheckDone` — the `select { case <-l.done: return; default: }` at the
  top of `scheduleRefresh`: a closed `done` makes the call return silently.
* `schedArmTimer` — the `refreshMu`-locked region of `scheduleRefresh`:
  stop any previous timer and arm a fresh `time.AfterFunc` timer.
* `closeSignalDone` — `close(l.done)`.
* `closeCancelTimer` — the `refreshMu`-locked region of `Close`: stop and
  clear the pending timer.
* `closeWaitReturn` — `watcher.Close()` plus `wg.Wait()`: enabled only once
  the pump goroutine has finished, after which `Close` returns.
* `timerFire` — an armed, un-stopped timer elapses and its callback runs
  `refresh`. -/
def watcherStep (c : WatcherConfig) : WAction → Option WatcherConfig
  | .schedCheckDone =>
    if c.pcSched = .start then
      if c.done then some { c with pcSched := .finished }
      else some { c with pcSched := .passedDoneCheck }
    else none
  | .schedArmTimer =>
    if c.pcSched = .passedDoneCheck then
      some { c with timerArmed := true, pcSched := .finished }
    else none
  | .closeSignalDone =>
    if c.pcClose = .start then some { c with done := true, pcClose := .doneClosed }
    else none
  | .closeCancelTimer =>
    if c.pcClose = .doneClosed then
      some { c with timerArmed := false, pcClose := .timerCancelled }
    else none
  | .closeWaitReturn =>
    if c.pcClose = .timerCancelled ∧ c.pcSched = .finished then
      some { c with pcClose := .returned, events := c.events ++ [.closeReturned] }
    else none
  | .timerFire =>
    if c.timerArmed = true then
      some { c with timerArmed := false, events := c.events ++ [.refreshRun] }
    else none

/-- Run a sequence of steps from a configuration; fails if a step is not
enabled. -/
def watcherRun (c : WatcherConfig) : List WAction → Option WatcherConfig
  | [] => some c
  | a :: rest =>
    match watcherStep c a with
    | some c2 => watcherRun c2 rest
    | none => none

/-- The state after construction, with one `scheduleRefresh` call in flight
(the pump is handling a qualifying event) and `Close` about to run. -/
def watcherStart : WatcherConfig :=
  { done := false, timerArmed := false, pcSched := .start, pcClose := .start, events := [] }

/-- The interleaving that breaks the post-close guarantee: the in-flight
`scheduleRefresh` passes its `done` check, `Close` then runs to completion
(signal `done`, cancel the — still unarmed — timer, wait for the pump),
but between the timer cancellation in `Close` and the completion of the wait the
`scheduleRefresh` call arms a fresh timer, which fires after `Close` has
returned. -/
def racingCloseTrace : List WAction :=
  [.schedCheckDone, .closeSignalDone, .closeCancelTimer, .schedArmTimer,
   .closeWaitReturn, .timerFire]

/-! ## Helper lemmas -/

/-- The walk callback of `Library.refresh` returns nil on every entry, so
`filepath.WalkDir` never reports an error back to `refresh`. -/
theorem walkDirError_eq_none (entries : List WalkEntry) : walkDirError entries = none := by
  induction entries with
  | nil => rfl
  | cons e rest ih => simp [walkDirError, walkCallbackReturn, List.findSome?] at ih ⊢

/-! ## C1 — shutdown versus a racing scheduleRefresh -/

/-- C1: the claim "once close() has returned, no recompute is ever triggered
afterwards, even if a scheduleRefresh call was racing the close" is violated
by the code.  `racingCloseTrace` is a legal interleaving of `Close` with one
in-flight `scheduleRefresh` (the `done` check of `scheduleRefresh` happens
before `close(done)`, but its timer-arming lock region runs after the
timer-cancellation lock region of `Close`): the run succeeds and its observable events
are `[closeReturned, refreshRun]` — a recompute fires strictly after
`Close` returned. -/
theorem close_race_allows_refresh_after_close :
    watcherRun watcherStart racingCloseTrace =
      some { done := true, timerArmed := false, pcSched := .finished,
             pcClose := .returned, events := [.closeReturned, .refreshRun] } := rfl

/-! ## C2 — construction with an unreadable root -/

/-- C2: the claim "if the initial recompute at construction time fails (for
example the catalog root is unreadable or nonexistent) then NewLibrary
returns an error and no watcher goroutine is started" is violated: the
`WalkDir` callback logs and swallows every walk error, including the error
for an unreadable/nonexistent root, so `Library.refresh` never returns an
error and `NewLibrary` succeeds, publishes an empty catalog and starts the
event pump. -/
theorem newLibrary_ignores_unreadable_root :
    newLibrary "/music" [".mp3"] (.ok ()) [.errEntry "/music"] =
      .ok { episodes := [], pumpStarted := true } ∧
    (∀ root allowed entries, (libraryRefresh root allowed entries).isOk = true) := by
  refine ⟨rfl, fun root allowed entries => ?_⟩
  simp [libraryRefresh, walkDirError_eq_none, Except.isOk, Except.toBool]

/-! ## C5 — token parsing and trimming -/

/-- C5: parsing the token-file content `"alpha\n\n beta \n"` yields exactly
the token set `{"alpha", "beta"}`; `IsValidToken ""` is false for every
published set; and `IsValidToken " alpha "` is true whenever `"alpha"` is in
the set (the input is trimmed before the membership test). -/
theorem token_parse_and_trim_contract :
    (∀ t, t ∈ parseTokenLines "alpha\n\n beta \n" ↔ t = "alpha" ∨ t = "beta") ∧
    (∀ tokens, isValidToken tokens "" = false) ∧
    (∀ tokens, "alpha" ∈ tokens → isValidToken tokens " alpha " = true) := by
  refine ⟨fun t => ?_, fun tokens => rfl, fun tokens h => ?_⟩
  · have hp : parseTokenLines "alpha\n\n beta \n" = ["alpha", "beta"] := by decide
    rw [hp]
    simp
  · exact decide_eq_true h

/-- Witness for C5 at a concrete published token set. -/
theorem token_parse_and_trim_contract_witness :
    ("alpha" ∈ ["zed", "alpha"]) ∧ isValidToken ["zed", "alpha"] " alpha " = true :=
  ⟨by decide, token_parse_and_trim_contract.2.2 ["zed", "alpha"] (by decide)⟩

/-! ## C6 — token refresh error policy -/

/-- C6: `TokenStore.refresh` fails only when reading the file fails with an
error other than not-exist; a missing file publishes the empty token set and
is not an error; any other read error is returned and leaves the previously
published token set unchanged; a successful read never fails. -/
theorem tokenRefresh_error_policy :
    ∀ (prior : List String),
      tokenRefresh (.error .notExist) prior = (none, []) ∧
      (∀ n, tokenRefresh (.error (.other n)) prior = (some (.other n), prior)) ∧
      (∀ content, (tokenRefresh (.ok content) prior).1 = none) ∧
      (∀ r, (tokenRefresh r prior).1 ≠ none → ∃ n, r = .error (.other n)) := by
  intro prior
  refine ⟨rfl, fun n => rfl, fun content => rfl, fun r h => ?_⟩
  match r with
  | .ok content => exact absurd rfl h
  | .error .notExist => exact absurd rfl h
  | .error (.other n) => exact ⟨n, rfl⟩

/-- Witness for C6: a permission-style read error propagates and keeps the
previous token set; a missing file empties it without error. -/
theorem tokenRefresh_error_policy_witness :
    tokenRefresh (.error .notExist) ["old"] = (none, []) ∧
    tokenRefresh (.error (.other 13)) ["old"] = (some (.other 13), ["old"]) ∧
    ((tokenRefresh (.error (.other 13)) ["old"]).1 ≠ none → ∃ n,
      (Except.error (.other 13) : Except ReadErr String) = .error (.other n)) ∧
    (∃ n, (Except.error (.other 13) : Except ReadErr String) = .error (.other n)) :=
  ⟨(tokenRefresh_error_policy ["old"]).1,
   (tokenRefresh_error_policy ["old"]).2.1 13,
   fun _ => (tokenRefresh_error_policy ["old"]).2.2.2 (.error (.other 13)) (by decide),
   (tokenRefresh_error_policy ["old"]).2.2.2 (.error (.other 13)) (by decide)⟩

/-! ## C8 — event filtering -/

/-- C8: `Library.handleEvent` schedules a debounced refresh iff the operation
of the event intersects the set of create, write, remove and rename and,
additionally, either the extension of the event path is accepted or the operation includes
remove or rename; in particular create/write events on non-accepted paths
never schedule a refresh. -/
theorem handleEvent_schedules_iff :
    ∀ (allowed : List String) (ev : FsEvent),
      (handleEventSchedules allowed ev = true ↔
        ((ev.op.create = true ∨ ev.op.write = true ∨ ev.op.remove = true ∨
            ev.op.rename = true) ∧
         (isAllowed allowed ev.name = true ∨ ev.op.remove = true ∨
            ev.op.rename = true))) ∧
      (ev.op.remove = false → ev.op.rename = false →
        isAllowed allowed ev.name = false → handleEventSchedules allowed ev = false) := by
  intro allowed ev
  obtain ⟨name, c, w, r, rn, ch⟩ := ev
  constructor
  · cases c <;> cases w <;> cases r <;> cases rn <;>
      by_cases h : isAllowed allowed name = true <;>
        simp_all [handleEventSchedules]
  · intro hr hrn hall
    simp only at hr hrn
    subst hr; subst hrn
    cases c <;> cases w <;> simp_all [handleEventSchedules]

/-- Witness for C8: a create event on a non-accepted extension does not
schedule a refresh; a remove event on the same path does. -/
theorem handleEvent_schedules_iff_witness :
    handleEventSchedules [".mp3"] ⟨"cover.txt", true, false, false, false, false⟩ = false ∧
    (handleEventSchedules [".mp3"] ⟨"cover.txt", false, false, true, false, false⟩ = true ↔
        ((false = true ∨ false = true ∨ true = true ∨ false = true) ∧
         (isAllowed [".mp3"] "cover.txt" = true ∨ true = true ∨ false = true))) :=
  ⟨(handleEvent_schedules_iff [".mp3"] ⟨"cover.txt", true, false, false, false, false⟩).2
      rfl rfl (by decide),
   (handleEvent_schedules_iff [".mp3"] ⟨"cover.txt", false, false, true, false, false⟩).1⟩

/-! ## C10 — case-insensitive extension matching -/

/-- C10: extension matching is case-insensitive everywhere it is applied:
the accepted set is stored lowercased at construction, a path is accepted
iff the lowercase form of its extension is in that set, a non-accepted file
contributes nothing to a recompute, and the `.mp3` gate of `BuildEpisode`
(`strings.EqualFold`) is equality after lowercasing. -/
theorem extension_matching_case_insensitive :
    ∀ (exts : List String) (path : String),
      mkAllowed exts = exts.map goToLower ∧
      (isAllowed (mkAllowed exts) path = true ↔
        goToLower (goExt path) ∈ exts.map goToLower) ∧
      (goEqualFold (goExt path) ".mp3" = true ↔ goToLower (goExt path) = ".mp3") ∧
      (∀ root io rest, isAllowed (mkAllowed exts) path = false →
        walkCollect root (mkAllowed exts) (.file path io :: rest) =
          walkCollect root (mkAllowed exts) rest) := by
  intro exts path
  refine ⟨rfl, ?_, ?_, fun root io rest hall => ?_⟩
  · simp [isAllowed, mkAllowed]
  · have hlow : goToLower ".mp3" = ".mp3" := by decide
    simp [goEqualFold, hlow]
  · simp [walkCollect, hall]

/-- Witness for C10: an uppercase-extension accepted set and a lowercase
path, plus a rejected file contributing nothing to the walk. -/
theorem extension_matching_case_insensitive_witness :
    (isAllowed (mkAllowed [".MP3"]) "Track.Mp3" = true ↔
      goToLower (goExt "Track.Mp3") ∈ [".MP3"].map goToLower) ∧
    (isAllowed (mkAllowed [".MP3"]) "notes.txt" = false) ∧
    walkCollect "/music" (mkAllowed [".MP3"])
        [.file "notes.txt" ⟨.error ⟨1⟩, .error (), .error (), .error ()⟩] =
      walkCollect "/music" (mkAllowed [".MP3"]) [] :=
  ⟨(extension_matching_case_insensitive [".MP3"] "Track.Mp3").2.1,
   by decide,
   (extension_matching_case_insensitive [".MP3"] "notes.txt").2.2.2 "/music"
      ⟨.error ⟨1⟩, .error (), .error (), .error ()⟩ [] (by decide)⟩

/-! ## C4 — last-modified timestamp normalization -/

/-- A stat outcome whose modification time is 2.7 s after the epoch: the
sub-second part (0.7 s) separates rounding from truncation. -/
def lateModOracle : FileOracle :=
  { stat := .ok { size := 5, modTime := { ns := 2700000000, isUTC := false } },
    rel := .ok "b.wav", tags := .error (), mp3Duration := .error () }

/-- The episode `BuildEpisode` produces for `lateModOracle`: the published
timestamp is 3 s (rounded up), not 2 s (truncated). -/
def lateModEpisode : Episode :=
  { ID := "b.wav", Filename := "b.wav", RelativePath := "b.wav", Title := "b",
    Artist := none, Album := none, DurationSeconds := none, BitrateKbps := none,
    FilesizeBytes := 5, ModifiedAt := { ns := 3000000000, isUTC := true } }

/-- C4, counterexample: the claim that the produced record has a last-modified
timestamp equal to the modification time of the file truncated to whole seconds
is false — for a modification time of 2.7 s the code (`ModTime().UTC().
Round(time.Second)`) publishes 3 s where truncation gives 2 s. -/
theorem modifiedAt_not_truncated :
    buildEpisode "b.wav" "/music" lateModOracle = .ok lateModEpisode ∧
    lateModEpisode.ModifiedAt ≠
      specTruncatedSecondUTC { ns := 2700000000, isUTC := false } :=
  ⟨rfl, by decide⟩

/-- C4, amended: for every file for which `BuildEpisode` succeeds, the
produced record has a last-modified timestamp equal to the modification
time *rounded to the nearest* whole second (halfway values rounding up) and
normalized to UTC. -/
theorem modifiedAt_rounded_to_second_utc :
    ∀ (path root : String) (io : FileOracle) (info : FileInfo),
      io.stat = .ok info →
      ∃ ep, buildEpisode path root io = .ok ep ∧
        ep.ModifiedAt = goRoundSecond (goUTC info.modTime) ∧
        ep.ModifiedAt.isUTC = true := by
  intro path root io info h
  obtain ⟨stat, rel, tags, mp3⟩ := io
  simp only at h
  subst h
  refine ⟨_, rfl, rfl, ?_⟩
  show (goRoundSecond (goUTC info.modTime)).isUTC = true
  simp only [goRoundSecond, goUTC]
  split <;> rfl

/-- Witness for C4 at the concrete 2.7 s modification time. -/
theorem modifiedAt_rounded_to_second_utc_witness :
    ∃ ep, buildEpisode "b.wav" "/music" lateModOracle = .ok ep ∧
      ep.ModifiedAt = goRoundSecond (goUTC { ns := 2700000000, isUTC := false }) ∧
      ep.ModifiedAt.isUTC = true :=
  modifiedAt_rounded_to_second_utc "b.wav" "/music" lateModOracle
    { size := 5, modTime := { ns := 2700000000, isUTC := false } } rfl

/-! ## C9 — bitrate/duration invariant of BuildEpisode -/

/-- C9: whenever the record produced by `BuildEpisode` has a populated
bitrate, its duration is populated and strictly positive, and the bitrate
is `math.Round(filesize * 8 / duration / 1000)` and strictly positive;
for files that fail the (case-insensitive) `.mp3` gate both fields are
absent. -/
theorem bitrate_implies_duration :
    ∀ (path root : String) (io : FileOracle) (ep : Episode),
      buildEpisode path root io = .ok ep →
      (∀ b, ep.BitrateKbps = some b →
        ∃ d, ep.DurationSeconds = some d ∧ 0 < d ∧
          b = goMathRound ((ep.FilesizeBytes : ℚ) * 8 / d / 1000) ∧ 0 < b) ∧
      (goEqualFold (goExt path) ".mp3" = false →
        ep.DurationSeconds = none ∧ ep.BitrateKbps = none) := by
  intro path root io ep h
  obtain ⟨stat, rel, tags, mp3⟩ := io
  cases stat with
  | error e => simp [buildEpisode] at h
  | ok info =>
    by_cases hmp3 : goEqualFold (goExt path) ".mp3" = true
    · cases mp3 with
      | error u =>
        simp only [buildEpisode, hmp3, if_true, Except.ok.injEq] at h
        subst h
        exact ⟨fun b hb => by simp at hb, fun _ => ⟨rfl, rfl⟩⟩
      | ok dur =>
        by_cases hdur : 0 < dur
        · by_cases hpos : 0 < goMathRound ((info.size : ℚ) * 8 / dur / 1000)
          · simp only [buildEpisode, hmp3, if_true, hdur, hpos, Except.ok.injEq] at h
            subst h
            refine ⟨fun b hb => ?_, fun hfalse => by simp [hmp3] at hfalse⟩
            simp only [Option.some.injEq] at hb
            exact ⟨dur, rfl, hdur, hb.symm, hb ▸ hpos⟩
          · simp only [buildEpisode, hmp3, if_true, hdur, hpos, Except.ok.injEq] at h
            subst h
            refine ⟨fun b hb => by simp at hb, fun hfalse => by simp [hmp3] at hfalse⟩
        · simp only [buildEpisode, hmp3, if_true, hdur, Except.ok.injEq] at h
          subst h
          exact ⟨fun b hb => by simp at hb, fun hfalse => by simp [hmp3] at hfalse⟩
    · simp only [Bool.not_eq_true] at hmp3
      simp only [buildEpisode, hmp3, Bool.false_eq_true, if_false, Except.ok.injEq] at h
      subst h
      exact ⟨fun b hb => by simp at hb, fun _ => ⟨rfl, rfl⟩⟩

/-- External outcomes for a well-formed 2-second, 4000-byte MP3 file. -/
def mp3Oracle : FileOracle :=
  { stat := .ok { size := 4000, modTime := { ns := 0, isUTC := false } },
    rel := .ok "a.mp3", tags := .error (), mp3Duration := .ok 2 }

/-- The episode `BuildEpisode` produces for `mp3Oracle`:
`4000 * 8 / 2 / 1000 = 16` kbps. -/
def mp3Episode : Episode :=
  { ID := "a.mp3", Filename := "a.mp3", RelativePath := "a.mp3", Title := "a",
    Artist := none, Album := none, DurationSeconds := some 2, BitrateKbps := some 16,
    FilesizeBytes := 4000, ModifiedAt := { ns := 0, isUTC := true } }

/-- Evaluation of `BuildEpisode` on the concrete MP3 oracle. -/
theorem buildEpisode_mp3_eval : buildEpisode "a.mp3" "/music" mp3Oracle = .ok mp3Episode := by
  have hfold : goEqualFold (goExt "a.mp3") ".mp3" = true := by decide
  have hq : goMathRound (((4000 : Int) : ℚ) * 8 / 2 / 1000) = 16 := by
    norm_num [goMathRound]
  have hpos : (0 : ℚ) < 2 := by norm_num
  simp only [buildEpisode, mp3Oracle, hfold, if_true, hpos, if_pos, hq]
  norm_num [mp3Episode]
  decide

/-- Witness for C9 at the concrete MP3 file. -/
theorem bitrate_implies_duration_witness :
    mp3Episode.BitrateKbps = some 16 ∧
    ∃ d, mp3Episode.DurationSeconds = some d ∧ 0 < d ∧
      (16 : Int) = goMathRound ((mp3Episode.FilesizeBytes : ℚ) * 8 / d / 1000) ∧
      (0 : Int) < 16 :=
  ⟨rfl,
   (bitrate_implies_duration "a.mp3" "/music" mp3Oracle mp3Episode
      buildEpisode_mp3_eval).1 16 rfl⟩

/-! ## C3 — snapshot isolation of ListEpisodes -/

/-- C3: every `ListEpisodes` call returns an independent copy: mutating any
record of the returned slice (arbitrary record update `f` at any index `i`)
leaves the published snapshot unchanged, leaves every other already-handed-
out slice unchanged, and a subsequent `ListEpisodes` call still returns the
original published contents. -/
theorem listEpisodes_snapshot_isolation :
    ∀ (h : SliceHeap) (pub : Nat), pub < h.cells.length →
      ∀ (i : Nat) (f : Episode → Episode),
        readSlice (mutateRecord (listEpisodes h pub).1 (listEpisodes h pub).2 i f) pub =
            readSlice h pub ∧
        (∀ r2, r2 < h.cells.length →
          readSlice (mutateRecord (listEpisodes h pub).1 (listEpisodes h pub).2 i f) r2 =
            readSlice h r2) ∧
        readSlice
            (listEpisodes (mutateRecord (listEpisodes h pub).1 (listEpisodes h pub).2 i f)
              pub).1
            (listEpisodes (mutateRecord (listEpisodes h pub).1 (listEpisodes h pub).2 i f)
              pub).2 =
          readSlice h pub := by
  intro h pub hpub i f
  have hA : ∀ r2, r2 < h.cells.length →
      readSlice (mutateRecord (listEpisodes h pub).1 (listEpisodes h pub).2 i f) r2 =
        readSlice h r2 := by
    intro r2 hr2
    simp only [listEpisodes, mutateRecord, readSlice, List.getD_eq_getElem?_getD]
    rw [List.getElem?_set_ne (by omega)]
    rw [List.getElem?_append, if_pos hr2]
  refine ⟨hA pub hpub, hA, ?_⟩
  have hA2 := hA pub hpub
  simp only [listEpisodes, mutateRecord, readSlice, List.getD_eq_getElem?_getD] at hA2 ⊢
  rw [List.getElem?_concat_length, Option.getD_some]
  exact hA2

/-- Witness for C3: a one-record published catalog, the caller mutates the
title of record 0 of the returned copy. -/
theorem listEpisodes_snapshot_isolation_witness :
    0 < (SliceHeap.mk [[mp3Episode]]).cells.length ∧
    (readSlice
        (mutateRecord (listEpisodes ⟨[[mp3Episode]]⟩ 0).1 (listEpisodes ⟨[[mp3Episode]]⟩ 0).2 0
          (fun ep => { ep with Title := "mutated" })) 0 =
      readSlice ⟨[[mp3Episode]]⟩ 0 ∧
    (∀ r2, r2 < (SliceHeap.mk [[mp3Episode]]).cells.length →
      readSlice
          (mutateRecord (listEpisodes ⟨[[mp3Episode]]⟩ 0).1 (listEpisodes ⟨[[mp3Episode]]⟩ 0).2 0
            (fun ep => { ep with Title := "mutated" })) r2 =
        readSlice ⟨[[mp3Episode]]⟩ r2) ∧
    readSlice
        (listEpisodes
          (mutateRecord (listEpisodes ⟨[[mp3Episode]]⟩ 0).1 (listEpisodes ⟨[[mp3Episode]]⟩ 0).2 0
            (fun ep => { ep with Title := "mutated" })) 0).1
        (listEpisodes
          (mutateRecord (listEpisodes ⟨[[mp3Episode]]⟩ 0).1 (listEpisodes ⟨[[mp3Episode]]⟩ 0).2 0
            (fun ep => { ep with Title := "mutated" })) 0).2 =
      readSlice ⟨[[mp3Episode]]⟩ 0) :=
  ⟨by decide,
   listEpisodes_snapshot_isolation ⟨[[mp3Episode]]⟩ 0 (by decide) 0
      (fun ep => { ep with Title := "mutated" })⟩

/-! ## C7 — published catalog ordering -/

/-- The ordering the spec claims for the published catalog: ascending by
relative path (byte-wise), ties on identical relative path broken by
filename ascending. -/
def episodeKeyOrder (a b : Episode) : Prop :=
  a.RelativePath.data < b.RelativePath.data ∨
    (a.RelativePath = b.RelativePath ∧ a.Filename.data ≤ b.Filename.data)

/-- The weak order induced by the Go comparator coincides with the key order
of the spec. -/
theorem episodeLe_iff {a b : Episode} : episodeLe a b ↔ episodeKeyOrder a b := by
  unfold episodeLe episodeLess episodeKeyOrder
  by_cases hrel : b.RelativePath = a.RelativePath
  · rw [if_pos hrel, decide_eq_false_iff_not, not_lt]
    have hdata : a.RelativePath.data = b.RelativePath.data :=
      (string_eq_iff_data.mp hrel).symm
    constructor
    · intro hle
      exact Or.inr ⟨hrel.symm, hle⟩
    · rintro (hlt | ⟨heq, hle⟩)
      · rw [hdata] at hlt
        exact absurd hlt (lt_irrefl _)
      · exact hle
  · rw [if_neg hrel, decide_eq_false_iff_not, not_lt]
    have hdata : a.RelativePath.data ≠ b.RelativePath.data := by
      intro hd
      exact hrel (string_eq_iff_data.mpr hd.symm)
    constructor
    · intro hle
      exact Or.inl (lt_of_le_of_ne hle hdata)
    · rintro (hlt | ⟨heq, hle⟩)
      · exact le_of_lt hlt
      · exact absurd heq (fun hq => hrel hq.symm)

instance : IsTotal Episode episodeLe :=
  ⟨fun a b => by
    rw [episodeLe_iff, episodeLe_iff]
    rcases lt_trichotomy a.RelativePath.data b.RelativePath.data with hlt | heq | hgt
    · exact Or.inl (Or.inl hlt)
    · have hstr : a.RelativePath = b.RelativePath := string_eq_iff_data.mpr heq
      rcases le_total a.Filename.data b.Filename.data with hf | hf
      · exact Or.inl (Or.inr ⟨hstr, hf⟩)
      · exact Or.inr (Or.inr ⟨hstr.symm, hf⟩)
    · exact Or.inr (Or.inl hgt)⟩

instance : IsTrans Episode episodeLe :=
  ⟨fun a b c hab hbc => by
    rw [episodeLe_iff] at hab hbc ⊢
    rcases hab with h1 | ⟨e1, f1⟩
    · rcases hbc with h2 | ⟨e2, f2⟩
      · exact Or.inl (lt_trans h1 h2)
      · exact Or.inl (lt_of_lt_of_le h1 (string_eq_iff_data.mp e2).le)
    · rcases hbc with h2 | ⟨e2, f2⟩
      · exact Or.inl (lt_of_le_of_lt (string_eq_iff_data.mp e1).le h2)
      · exact Or.inr ⟨e1.trans e2, le_trans f1 f2⟩⟩

/-- C7: after every successful recompute, the published episode sequence is
sorted ascending by relative path with ties broken by filename ascending,
for every enumeration order the filesystem walk may have produced. -/
theorem refresh_publishes_sorted_catalog :
    ∀ (root : String) (allowed : List String) (entries : List WalkEntry) (l : List Episode),
      libraryRefresh root allowed entries = .ok l → List.Pairwise episodeKeyOrder l := by
  intro root allowed entries l h
  simp only [libraryRefresh, walkDirError_eq_none, Except.ok.injEq] at h
  subst h
  have hs : List.Sorted episodeLe (sortEpisodes (walkCollect root allowed entries)) :=
    List.sorted_insertionSort episodeLe (walkCollect root allowed entries)
  exact hs.imp (fun hab => episodeLe_iff.mp hab)

/-- External outcomes for a plain wav file named `name` directly under the
root. -/
def wavOracle (name : String) : FileOracle :=
  { stat := .ok { size := 5, modTime := { ns := 0, isUTC := false } },
    rel := .ok name, tags := .error (), mp3Duration := .error () }

/-- The episode `BuildEpisode` produces for `wavOracle name`. -/
def wavEpisode (name title : String) : Episode :=
  { ID := name, Filename := name, RelativePath := name, Title := title,
    Artist := none, Album := none, DurationSeconds := none, BitrateKbps := none,
    FilesizeBytes := 5, ModifiedAt := { ns := 0, isUTC := true } }

/-- Witness for C7: a walk that enumerates `b.wav` before `a.wav` still
publishes `[a.wav, b.wav]`. -/
theorem refresh_publishes_sorted_catalog_witness :
    List.Pairwise episodeKeyOrder [wavEpisode "a.wav" "a", wavEpisode "b.wav" "b"] :=
  refresh_publishes_sorted_catalog "/music" (mkAllowed [".wav"])
    [.file "b.wav" (wavOracle "b.wav"), .file "a.wav" (wavOracle "a.wav")]
    [wavEpisode "a.wav" "a", wavEpisode "b.wav" "b"] rfl
